import Mathlib

/-!
# Verification of the Janus browser-protocol client core

Shallow embedding of the Janus client's protocol core: the command
multiplexer (`CommandActor`), the event router (`EventActor`), the
WebSocket transport receive loop, the connection manager's start-up
protocol, the transport factory, and the Chrome browser handle actor.
Each definition mirrors the corresponding Rust source item; theorems
settle the specification claims about them.
-/

namespace Janus

/-! ## JSON data model (`serde_json::Value` and the envelope structs) -/

/-- Model of `serde_json::Value`. -/
inductive JsonValue where
  | null
  | bool (b : Bool)
  | num (n : Int)
  | str (s : String)
  | arr (elems : List JsonValue)
  | obj (fields : List (String × JsonValue))

/-- Model of `JsonRpcError` (messages.rs): integer `code`, `message`,
optional `data`. -/
structure JsonRpcError where
  code : Int
  message : String
  data : Option JsonValue

/-- Model of `JsonRpcResponse` (messages.rs). -/
structure JsonRpcResponse where
  id : Int
  result : Option JsonValue
  error : Option JsonRpcError

/-- Model of `IncomingJson` (messages.rs): the flat envelope with all
fields optional, produced by `serde_json::from_str`. -/
structure IncomingJson where
  id : Option Int
  method : Option String
  params : Option JsonValue
  result : Option JsonValue
  error : Option JsonRpcError
  session_id : Option String

/-- Model of `TransportError` (janus-transport/src/error.rs). -/
inductive TransportError where
  | connectionFailed (msg : String)
  | notConnected (msg : String)
  | sendFailed (msg : String)
  | receiveFailed (msg : String)
  | serdeError (msg : String)
  | timeout
  | invalidUrl (msg : String)
  | unsupportedScheme (msg : String)
  | io (msg : String)
  | webSocketError (msg : String)
  | tlsError (msg : String)
  | cancelled
  | other (msg : String)
deriving DecidableEq, Repr

/-- Model of `InternalError` (janus-core/src/error.rs), restricted to the
variants the protocol core produces. -/
inductive InternalError where
  | transport (e : TransportError)
  | protocol (code : Option Int) (message : String) (data : Option String)
  | actor (msg : String)
  | timeout
  | serialization (msg : String)
deriving DecidableEq, Repr

/-- Alias for `Result<Value, InternalError>` (`CommandResult`, messages.rs). -/
abbrev CommandResult := Except InternalError JsonValue

/-- A crude rendering of a JSON value to a string, standing in for
`Value::to_string()`; the claims never inspect the rendered text. -/
def JsonValue.render : JsonValue → String
  | .null => "null"
  | .bool b => if b then "true" else "false"
  | .num n => toString n
  | .str s => s
  | .arr _ => "<array>"
  | .obj _ => "<object>"

/-- Result of `serde_json::to_value` applied to a `JsonRpcError`: the struct's
fields as a JSON object (`None` data serialized as `null`). -/
def JsonRpcError.toValue (e : JsonRpcError) : JsonValue :=
  .obj [("code", .num e.code), ("message", .str e.message),
        ("data", e.data.getD .null)]

/-- Model of `ProtocolEvent` (messages.rs). -/
structure ProtocolEvent where
  session_id : Option String
  method : String
  params : JsonValue

/-- Model of `ConnectionState` (janus-transport/src/connection.rs). -/
inductive ConnectionState where
  | idle
  | connecting
  | connected
  | disconnecting
  | disconnected (err : Option TransportError)
  | failedToStart (err : TransportError)
deriving DecidableEq, Repr

/-! ## Association-list model of `HashMap<i64, PendingRequestInfo>`

The multiplexer's pending map has `i64` keys; we model it as an
association list with the unique-key discipline a `HashMap` maintains:
`insert` replaces an existing binding, `remove` deletes the binding. -/

/-- Model of `HashMap::insert`: replace the binding if the key exists, otherwise
add it. -/
def assocInsert {κ α : Type} [DecidableEq κ] (k : κ) (v : α) (l : List (κ × α)) :
    List (κ × α) :=
  if l.any (fun p => p.1 = k) then l.map (fun p => if p.1 = k then (k, v) else p)
  else l ++ [(k, v)]

/-- Model of `HashMap::remove`: delete the binding for `k` (keys are unique, so
filtering every binding with key `k` is the same operation). -/
def assocRemove {κ α : Type} [DecidableEq κ] (k : κ) (l : List (κ × α)) :
    List (κ × α) :=
  l.filter (fun p => p.1 ≠ k)

/-- Model of `HashMap::get`, the lookup used by the success test of `remove(&id)`. -/
def assocGet {κ α : Type} [DecidableEq κ] (k : κ) (l : List (κ × α)) : Option α :=
  (l.find? (fun p => p.1 = k)).map (fun p => p.2)

/-! ## CommandActor (janus-protocol-handler/src/command_actor.rs)

State: `next_id` and the pending-request map.  A sink resolution is
modelled as the pair `(id, CommandResult)` emitted by a handler; timer
cancellation is observationally subsumed by removal from the pending map
(a `CommandTimeout` for a removed id is a no-op). -/

/-- Model of `PendingRequestInfo` (messages.rs); the oneshot sender and
timer handle are represented by the emitted resolutions. -/
structure PendingRequestInfo where
  method : String
deriving DecidableEq, Repr

/-- The `CommandActor`'s mutable state (command_actor.rs lines 13-19). -/
structure CmdState where
  next_id : Int
  pending : List (Int × PendingRequestInfo)
deriving DecidableEq, Repr

/-- Model of `CommandActor::new`: `next_id` starts at 1 with an empty pending map
(command_actor.rs lines 21-34). -/
def CommandActor.init : CmdState := ⟨1, []⟩

/-- Outcome of `serde_json::from_str::<IncomingJson>` on an inbound text
message: a parsed envelope, or a deserialization error with its message
and the raw text. -/
inductive ParsedMessage where
  | ok (j : IncomingJson)
  | parseErr (emsg : String) (raw : String)

/-- The classification outcome of one `Handler<IncomingMessage>` run:
dispatch to `handle_response`, forward an event via `handle_event`, or
log a warning and do nothing further. -/
inductive InboundAction where
  | response (r : JsonRpcResponse)
  | event (session_id : Option String) (method : String) (params : JsonValue)
  | droppedWithWarning

/-- Returns `true` exactly when the handler only logs: nothing is forwarded to a
sink or to the event router. -/
def InboundAction.isSilentDrop : InboundAction → Bool
  | .droppedWithWarning => true
  | _ => false

/-- The classification logic of `impl Handler<IncomingMessage> for
CommandActor` (command_actor.rs lines 204-244): `id` present → response;
else `method` present → event (params defaulted to null, as in
`handle_event`); else `error` present → synthetic `Protocol.error`
event; else only a log warning.  A parse failure becomes a synthetic
`Protocol.deserializeError` event carrying the error text and raw
message. -/
def classifyInbound : ParsedMessage → InboundAction
  | .parseErr e raw =>
      .event none "Protocol.deserializeError"
        (.obj [("error", .str e), ("raw", .str raw)])
  | .ok j =>
      match j.id with
      | some id => .response ⟨id, j.result, j.error⟩
      | none =>
        match j.method with
        | some m => .event j.session_id m (j.params.getD .null)
        | none =>
          match j.error with
          | some err => .event none "Protocol.error" err.toValue
          | none => .droppedWithWarning

/-- Model of `CommandActor::handle_response` (command_actor.rs lines 36-65):
remove the pending record for `response.id` if present, cancel its
timer, and resolve its sink — `Protocol{code,message,data}` when `error`
is present, otherwise `Ok(result or null)`.  An unknown id only logs. -/
def responsePayload (r : JsonRpcResponse) : CommandResult :=
  match r.error with
  | some error =>
      .error (.protocol (some error.code) error.message
        (error.data.map JsonValue.render))
  | none => .ok (r.result.getD .null)

def handleResponse (r : JsonRpcResponse) (s : CmdState) :
    CmdState × List (Int × CommandResult) :=
  match assocGet r.id s.pending with
  | some _pending =>
      ({ s with pending := assocRemove r.id s.pending }, [(r.id, responsePayload r)])
  | none => (s, [])

/-- Model of `impl Handler<CommandTimeout>` (command_actor.rs lines 247-262):
remove the pending record if still present and resolve its sink with
`Err(Timeout)`; otherwise do nothing. -/
def handleTimeout (id : Int) (s : CmdState) :
    CmdState × List (Int × CommandResult) :=
  match assocGet id s.pending with
  | some _pending =>
      ({ s with pending := assocRemove id s.pending }, [(id, .error .timeout)])
  | none => (s, [])

/-- Model of `impl Handler<ConnectionStatusUpdate>` (command_actor.rs lines
265-280): only `Disconnected(Some(err))` drains the pending map,
resolving every sink with `Err(Transport(err))`; every other state
update (including `Disconnected(None)` and `FailedToStart`) leaves the
pending map untouched. -/
def handleStatusUpdate (st : ConnectionState) (s : CmdState) :
    CmdState × List (Int × CommandResult) :=
  match st with
  | .disconnected (some err) =>
      ({ s with pending := [] },
       s.pending.map (fun p => (p.1, .error (.transport err))))
  | _ => (s, [])

/-- Model of `impl Handler<SendCommand>` (command_actor.rs lines 108-201):
allocate `id = next_id` and increment `next_id`; on serialization
failure (`serErr = some e`) resolve the caller immediately with
`Err(Serialization(e))` and register nothing; otherwise register the
pending record.  Returns the new state, the allocated id, and the
immediate resolutions. -/
def handleSendCommand (serErr : Option String) (method : String) (s : CmdState) :
    CmdState × Int × List (Int × CommandResult) :=
  match serErr with
  | some e =>
      ({ s with next_id := s.next_id + 1 }, s.next_id,
       [(s.next_id, .error (.serialization e))])
  | none =>
      (⟨s.next_id + 1, assocInsert s.next_id ⟨method⟩ s.pending⟩, s.next_id, [])

/-- The asynchronous cleanup closure spawned by `Handler<SendCommand>`
(command_actor.rs lines 186-195): when the transport/mailbox send of a
command fails, remove its pending record (if still present) and forward
the error to the sink. -/
def handleSendFailure (id : Int) (err : InternalError) (s : CmdState) :
    CmdState × List (Int × CommandResult) :=
  match assocGet id s.pending with
  | some _pending =>
      ({ s with pending := assocRemove id s.pending }, [(id, .error err)])
  | none => (s, [])

/-- Model of `Handler<IncomingMessage>` in full: classify, then either run
`handle_response` or forward the event. -/
def handleIncoming (p : ParsedMessage) (s : CmdState) :
    CmdState × List (Int × CommandResult) × List ProtocolEvent :=
  match classifyInbound p with
  | .response r => ((handleResponse r s).1, (handleResponse r s).2, [])
  | .event sess m params => (s, [], [⟨sess, m, params⟩])
  | .droppedWithWarning => (s, [], [])

/-- The messages a `CommandActor` processes. -/
inductive CmdMsg where
  | send (serErr : Option String) (method : String)
  | incoming (p : ParsedMessage)
  | timeoutFired (id : Int)
  | status (st : ConnectionState)
  | sendFailure (id : Int) (err : InternalError)

/-- Observable output of one `CommandActor` message dispatch. -/
structure StepOut where
  state : CmdState
  resolutions : List (Int × CommandResult)
  events : List ProtocolEvent
  allocated : List Int

/-- Dispatch one mailbox message (the actor processes its mailbox
sequentially). -/
def stepCmd (m : CmdMsg) (s : CmdState) : StepOut :=
  match m with
  | .send serErr method =>
      ⟨(handleSendCommand serErr method s).1, (handleSendCommand serErr method s).2.2,
       [], [(handleSendCommand serErr method s).2.1]⟩
  | .incoming p =>
      ⟨(handleIncoming p s).1, (handleIncoming p s).2.1, (handleIncoming p s).2.2, []⟩
  | .timeoutFired id =>
      ⟨(handleTimeout id s).1, (handleTimeout id s).2, [], []⟩
  | .status st =>
      ⟨(handleStatusUpdate st s).1, (handleStatusUpdate st s).2, [], []⟩
  | .sendFailure id err =>
      ⟨(handleSendFailure id err s).1, (handleSendFailure id err s).2, [], []⟩

/-- Run a mailbox trace, collecting the sink resolutions and the
allocated request ids in order. -/
def runTrace (s : CmdState) : List CmdMsg → CmdState × List (Int × CommandResult) × List Int
  | [] => (s, [], [])
  | m :: rest =>
      ((runTrace (stepCmd m s).state rest).1,
       (stepCmd m s).resolutions ++ (runTrace (stepCmd m s).state rest).2.1,
       (stepCmd m s).allocated ++ (runTrace (stepCmd m s).state rest).2.2)

/-- How many sink resolutions a run emitted for a given id. -/
def resCountFor (id : Int) (res : List (Int × CommandResult)) : Nat :=
  (res.filter (fun p => p.1 = id)).length

/-- Number of `SendCommand` messages in a trace (each allocates one id). -/
def countSends : List CmdMsg → Nat
  | [] => 0
  | .send _ _ :: rest => countSends rest + 1
  | _ :: rest => countSends rest

/-- The pending-map invariant maintained by every handler: keys are
unique and strictly below `next_id`. -/
def CmdInv (s : CmdState) : Prop :=
  (s.pending.map Prod.fst).Nodup ∧ ∀ p ∈ s.pending, p.1 < s.next_id

/-! ## EventActor (janus-protocol-handler/src/event_actor.rs)

`SubscriptionMap = HashMap<(String, Option<String>), HashSet<Recipient>>`.
Recipients (sinks) are identified by naturals; the `HashSet` is a
`Finset`. -/

/-- A subscriber (`Recipient<ProtocolEvent>`), identified abstractly. -/
abbrev Sink := Nat

/-- Subscription key: `(event name, optional session id)`. -/
abbrev SubKey := String × Option String

/-- The `EventActor`'s subscription map. -/
abbrev SubscriptionMap := List (SubKey × Finset Sink)

/-- The subscriber set under a key (empty when the key is absent), as
read by `subscriptions.get(&key)`. -/
def subLookup (k : SubKey) (m : SubscriptionMap) : Finset Sink :=
  (assocGet k m).getD ∅

/-- Model of `impl Handler<Subscribe>` (event_actor.rs lines 38-52):
`subscriptions.entry(key).or_default().insert(subscriber)`. -/
def subscribe (name : String) (sess : Option String) (s : Sink)
    (m : SubscriptionMap) : SubscriptionMap :=
  assocInsert (name, sess) (insert s (subLookup (name, sess) m)) m

/-- Model of `impl Handler<Unsubscribe>` (event_actor.rs lines 55-72): remove the
sink from the set under the key; remove the key entirely when the set
becomes empty; do nothing when the key is absent. -/
def unsubscribe (name : String) (sess : Option String) (s : Sink)
    (m : SubscriptionMap) : SubscriptionMap :=
  match assocGet (name, sess) m with
  | none => m
  | some subscribers =>
      if subscribers.erase s = ∅ then assocRemove (name, sess) m
      else assocInsert (name, sess) (subscribers.erase s) m

/-- The recipient set built by `impl Handler<ProtocolEvent>`
(event_actor.rs lines 75-122): subscribers under the specific key
`(method, session)`, plus — only when the specific key differs from the
wildcard key `(method, None)` — the subscribers under the wildcard key.
`HashSet` union, so each matching recipient appears once. -/
def publishRecipients (ev : ProtocolEvent) (m : SubscriptionMap) : Finset Sink :=
  let specific : SubKey := (ev.method, ev.session_id)
  let wildcard : SubKey := (ev.method, none)
  if specific ≠ wildcard then subLookup specific m ∪ subLookup wildcard m
  else subLookup specific m

/-- The deliveries of one publication, with multiplicities: the
`for recipient in recipients_to_notify` loop sends one cloned copy to
each member of the recipient set. -/
def publishDeliveries (ev : ProtocolEvent) (m : SubscriptionMap) : Multiset Sink :=
  (publishRecipients ev m).val

/-- Well-formedness the `EventActor` maintains: unique keys (a
`HashMap`) and no empty subscriber sets (`unsubscribe` purges them,
`subscribe` never creates one). -/
def SubWF (m : SubscriptionMap) : Prop :=
  (m.map Prod.fst).Nodup ∧ ∀ e ∈ m, e.2 ≠ ∅

/-! ## WebSocket transport receive (janus-transport/src/websocket.rs)

`WebSocketTransport::receive` reads frames off the split stream.  The
inbound stream is a list of frames; `receive` returns the yielded item
and the frames still unconsumed.  The source code's `Ping` arm contains
two sequential recursive calls — the first one's result is discarded —
which the model reproduces exactly. -/

/-- The tungstenite frames `receive` distinguishes. -/
inductive WsFrame where
  | text (s : String)
  | binary (len : Nat)
  | ping (data : String)
  | pong (data : String)
  | close
  | rawFrame
deriving DecidableEq, Repr

/-- What one `receive` call yields: `none` on close/stream end, or a
text message, or a transport error. -/
abbrev WsReceived := Option (Except TransportError String)

/-- Fuel-indexed unfolding of `WebSocketTransport::receive`
(websocket.rs lines 169-253).  Text is returned; Binary and Pong skip to
the next frame; Ping runs `self.receive().await;` *discarding the
result* (line 195) and then `self.receive().await` again (line 205);
Close yields `none`; a raw frame yields a `ReceiveFailed` error.  The
fuel only bounds recursion depth; each call consumes at least one frame,
so `fuel = length` never exhausts it. -/
def wsReceiveGo : Nat → List WsFrame → WsReceived × List WsFrame
  | _, [] => (none, [])
  | 0, l => (none, l)
  | _fuel + 1, .text t :: rest => (some (.ok t), rest)
  | fuel + 1, .binary _ :: rest => wsReceiveGo fuel rest
  | fuel + 1, .ping _ :: rest =>
      let discarded := wsReceiveGo fuel rest
      wsReceiveGo fuel discarded.2
  | fuel + 1, .pong _ :: rest => wsReceiveGo fuel rest
  | _fuel + 1, .close :: rest => (none, rest)
  | _fuel + 1, .rawFrame :: rest =>
      (some (.error (.receiveFailed "Received unexpected raw frame")), rest)

/-- Model of `WebSocketTransport::receive` on a frame stream. -/
def wsReceive (l : List WsFrame) : WsReceived × List WsFrame :=
  wsReceiveGo l.length l

/-! ## Connection manager start-up (janus-transport/src/connection.rs) -/

/-- The four possible outcomes of the start-up sequence of
`ConnectionActor::start_connection_task` (connection.rs lines 69-82 and
166-175): transport creation failed, `connect_internal` returned an
error, the connection timeout elapsed, or the transport connected. -/
inductive ConnectAttempt where
  | createFailed (e : TransportError)
  | connectError (e : TransportError)
  | timedOut
  | success
deriving DecidableEq, Repr

/-- The `ConnectionStatusUpdate` states published to the supervisor
during one start-up run, in order: `Connecting` is published by
`start_connection_task` itself; the second entry is the state the
`TransportEvent` handler (connection.rs lines 283-318) publishes for the
event the connection task sends — `FailedToStart(e)` when
`create_transport` failed, `Disconnected(Some(e))` when
`connect_internal` errored, `Disconnected(Some(Timeout))` when the
connect timeout elapsed, `Connected` on success. -/
def startStatusUpdates : ConnectAttempt → List ConnectionState
  | .createFailed e => [.connecting, .failedToStart e]
  | .connectError e => [.connecting, .disconnected (some e)]
  | .timedOut => [.connecting, .disconnected (some .timeout)]
  | .success => [.connecting, .connected]

/-- Whether a published status sequence contains a `FailedToStart`. -/
def publishesFailedToStart (l : List ConnectionState) : Bool :=
  l.any (fun st => match st with | .failedToStart _ => true | _ => false)

/-- Whether a published status sequence contains a `Disconnected`. -/
def publishesDisconnected (l : List ConnectionState) : Bool :=
  l.any (fun st => match st with | .disconnected _ => true | _ => false)

/-! ## Transport factory (janus-transport/src/factory.rs) -/

/-- The transports `create_transport` can select. -/
inductive TransportKind where
  | webSocket
deriving DecidableEq, Repr

/-- The scheme literal `"ws://"` as characters. -/
def wsScheme : List Char := ['w', 's', ':', '/', '/']

/-- The scheme literal `"wss://"` as characters. -/
def wssScheme : List Char := ['w', 's', 's', ':', '/', '/']

/-- Model of `create_transport` (factory.rs lines 13-52) with the `websocket`
feature enabled: `url.starts_with("ws://") || url.starts_with("wss://")`
selects the WebSocket transport, everything else is
`UnsupportedScheme`.  `str::starts_with` compares characters exactly, so
the check is byte-for-byte on the lowercase literals. -/
def createTransport (url : List Char) : Except TransportError TransportKind :=
  if url.take 5 = wsScheme ∨ url.take 6 = wssScheme then .ok .webSocket
  else .error (.unsupportedScheme
    ("Scheme not supported or feature not enabled for URL: " ++ String.mk url))

/-- Returns `true` exactly on an `UnsupportedScheme` outcome. -/
def isUnsupportedScheme : Except TransportError TransportKind → Bool
  | .error (.unsupportedScheme _) => true
  | _ => false

/-! ## Chrome browser handle actor (janus-browser-chrome/src/actors.rs)

Only the two maps the C10 invariant speaks about are modelled:
`page_actors: HashMap<String, Addr<ChromePageActor>>` (its key set) and
`target_sessions: HashMap<String, String>`. -/

/-- The map state of `ChromeBrowserActor` (actors.rs lines 85-95). -/
structure BrowserState where
  pageActors : List String
  targetSessions : List (String × String)
deriving DecidableEq, Repr

/-- Model of `ChromeBrowserActor::new`: both maps empty. -/
def BrowserState.init : BrowserState := ⟨[], []⟩

/-- The `Target.*` events `handle_target_event` matches, reduced to the
fields the handler reads.  `parseFailed` covers a params payload that
failed to deserialize (the handler only warns). -/
inductive TargetEventMsg where
  | targetCreated (targetId : String) (typeIsPage : Bool)
  | targetInfoChanged
  | attachedToTarget (sessionId : String) (targetId : String) (typeIsPage : Bool)
  | detachedFromTarget (sessionId : String)
  | targetDestroyed (targetId : String)
  | parseFailed
  | otherEvent

/-- Model of `ChromeBrowserActor::handle_target_event` (actors.rs lines 155-235)
restricted to its effect on the two maps.  `targetCreated` only spawns
an attach command (no map change).  `attachedToTarget` for a page target
inserts the session id and then — only when no page actor exists —
creates one (`create_page_actor_internal`, lines 268-278).
`detachedFromTarget` looks up the target id by session id and removes
both entries; `targetDestroyed` removes both entries by target id. -/
def handleTargetEvent : TargetEventMsg → BrowserState → BrowserState
  | .targetCreated _ _, s => s
  | .targetInfoChanged, s => s
  | .attachedToTarget sid tid isPage, s =>
      if isPage then
        let s1 : BrowserState :=
          { s with targetSessions := assocInsert tid sid s.targetSessions }
        if s1.pageActors.contains tid then s1
        else { s1 with pageActors := s1.pageActors ++ [tid] }
      else s
  | .detachedFromTarget sid, s =>
      match s.targetSessions.find? (fun p => p.2 = sid) with
      | some entry =>
          { s with pageActors := s.pageActors.filter (fun t => t ≠ entry.1),
                   targetSessions := assocRemove entry.1 s.targetSessions }
      | none => s
  | .targetDestroyed tid, s =>
      { s with pageActors := s.pageActors.filter (fun t => t ≠ tid),
               targetSessions := assocRemove tid s.targetSessions }
  | .parseFailed, s => s
  | .otherEvent, s => s

/-- The operations that touch the two maps: a `Target.*` event, or the
actor's `stopping` hook (actors.rs lines 331-343), which clears both. -/
inductive BrowserOp where
  | event (e : TargetEventMsg)
  | stopping

/-- Apply one operation of the browser actor. -/
def applyBrowserOp : BrowserOp → BrowserState → BrowserState
  | .event e, s => handleTargetEvent e s
  | .stopping, _s => ⟨[], []⟩

/-- C10's invariant: every target id with a live page actor has a
session id recorded. -/
def browserInv (s : BrowserState) : Prop :=
  ∀ tid ∈ s.pageActors, tid ∈ s.targetSessions.map Prod.fst

instance (s : BrowserState) : Decidable (browserInv s) := by
  unfold browserInv; infer_instance

/-! ## Helper lemmas about the association-list map operations -/

theorem assocGet_cons_pos {κ α : Type} [DecidableEq κ] {k : κ} {p : κ × α}
    (l : List (κ × α)) (h : p.1 = k) : assocGet k (p :: l) = some p.2 := by
  unfold assocGet
  rw [List.find?_cons_of_pos _ (by simpa using h)]
  rfl

theorem assocGet_cons_neg {κ α : Type} [DecidableEq κ] {k : κ} {p : κ × α}
    (l : List (κ × α)) (h : ¬ p.1 = k) : assocGet k (p :: l) = assocGet k l := by
  unfold assocGet
  rw [List.find?_cons_of_neg _ (by simpa using h)]

theorem assoc_any_iff_mem_keys {κ α : Type} [DecidableEq κ] (k : κ)
    (l : List (κ × α)) : (l.any (fun p => p.1 = k)) = true ↔ k ∈ l.map Prod.fst := by
  simp only [List.any_eq_true, decide_eq_true_eq, List.mem_map]

theorem assoc_map_update_of_not_mem {κ α : Type} [DecidableEq κ] (k : κ) (v : α)
    (l : List (κ × α)) (h : ∀ p ∈ l, p.1 ≠ k) :
    l.map (fun p => if p.1 = k then (k, v) else p) = l := by
  induction l with
  | nil => rfl
  | cons p rest ih =>
      have hp : p.1 ≠ k := h p (by simp)
      simp only [List.map_cons, if_neg hp]
      rw [ih (fun q hq => h q (by simp [hq]))]

theorem assoc_map_update_keys {κ α : Type} [DecidableEq κ] (k : κ) (v : α)
    (l : List (κ × α)) :
    (l.map (fun p => if p.1 = k then (k, v) else p)).map Prod.fst = l.map Prod.fst := by
  rw [List.map_map]
  apply List.map_congr_left
  intro p _hp
  by_cases hpk : p.1 = k
  · simp [hpk]
  · simp [hpk]

theorem assocGet_some_mem {κ α : Type} [DecidableEq κ] {k : κ} {v : α}
    {l : List (κ × α)} (h : assocGet k l = some v) : (k, v) ∈ l := by
  induction l with
  | nil => simp [assocGet] at h
  | cons p rest ih =>
      by_cases hp : p.1 = k
      · rw [assocGet_cons_pos _ hp] at h
        obtain ⟨a, b⟩ := p
        simp only at hp
        have hb : b = v := by injection h
        subst hp; subst hb
        exact List.mem_cons_self _ _
      · rw [assocGet_cons_neg _ hp] at h
        exact List.mem_cons_of_mem _ (ih h)

theorem assocGet_none_iff {κ α : Type} [DecidableEq κ] (k : κ) (l : List (κ × α)) :
    assocGet k l = none ↔ ∀ p ∈ l, p.1 ≠ k := by
  unfold assocGet
  simp [List.find?_eq_none]

theorem assocGet_none_of_not_mem_keys {κ α : Type} [DecidableEq κ] {k : κ}
    {l : List (κ × α)} (h : k ∉ l.map Prod.fst) : assocGet k l = none := by
  rw [assocGet_none_iff]
  intro p hp hk
  exact h (hk ▸ List.mem_map_of_mem Prod.fst hp)

theorem assocGet_isSome_iff_mem_keys {κ α : Type} [DecidableEq κ] (k : κ)
    (l : List (κ × α)) : (assocGet k l).isSome ↔ k ∈ l.map Prod.fst := by
  constructor
  · intro h
    cases hg : assocGet k l with
    | none => rw [hg] at h; simp at h
    | some v => simpa using List.mem_map_of_mem Prod.fst (assocGet_some_mem hg)
  · intro h
    cases hg : assocGet k l with
    | some v => simp
    | none =>
        rw [assocGet_none_iff] at hg
        rcases List.mem_map.mp h with ⟨p, hp, hk⟩
        exact absurd hk (hg p hp)

theorem assocRemove_eq_self {κ α : Type} [DecidableEq κ] {k : κ}
    {l : List (κ × α)} (h : assocGet k l = none) : assocRemove k l = l := by
  rw [assocGet_none_iff] at h
  unfold assocRemove
  apply List.filter_eq_self.mpr
  intro p hp
  simpa using h p hp

theorem assocInsert_of_not_mem_keys {κ α : Type} [DecidableEq κ] {k : κ} (v : α)
    {l : List (κ × α)} (h : k ∉ l.map Prod.fst) :
    assocInsert k v l = l ++ [(k, v)] := by
  unfold assocInsert
  rw [if_neg]
  intro hany
  exact h ((assoc_any_iff_mem_keys k l).mp hany)

theorem assocGet_append_single {κ α : Type} [DecidableEq κ] (k : κ) (v : α)
    (l : List (κ × α)) (h : k ∉ l.map Prod.fst) :
    assocGet k (l ++ [(k, v)]) = some v := by
  induction l with
  | nil => exact assocGet_cons_pos _ rfl
  | cons p rest ih =>
      have hp : ¬ p.1 = k := fun hk => h (by rw [List.map_cons, ← hk]; exact List.mem_cons_self _ _)
      rw [List.cons_append, assocGet_cons_neg _ hp]
      exact ih (fun hc => h (by rw [List.map_cons]; exact List.mem_cons_of_mem _ hc))

theorem assocGet_map_update {κ α : Type} [DecidableEq κ] (k : κ) (v : α)
    (l : List (κ × α)) (h : k ∈ l.map Prod.fst) :
    assocGet k (l.map (fun p => if p.1 = k then (k, v) else p)) = some v := by
  induction l with
  | nil => simp at h
  | cons p rest ih =>
      by_cases hp : p.1 = k
      · rw [List.map_cons, if_pos hp]
        exact assocGet_cons_pos _ rfl
      · rw [List.map_cons, if_neg hp, assocGet_cons_neg _ hp]
        apply ih
        rcases List.mem_map.mp h with ⟨q, hq, hqk⟩
        rcases List.mem_cons.mp hq with h1 | h2
        · exact absurd (h1 ▸ hqk) hp
        · exact List.mem_map.mpr ⟨q, h2, hqk⟩

theorem assocGet_assocInsert_self {κ α : Type} [DecidableEq κ] (k : κ) (v : α)
    (l : List (κ × α)) : assocGet k (assocInsert k v l) = some v := by
  by_cases hmem : k ∈ l.map Prod.fst
  · unfold assocInsert
    rw [if_pos ((assoc_any_iff_mem_keys k l).mpr hmem)]
    exact assocGet_map_update k v l hmem
  · rw [assocInsert_of_not_mem_keys v hmem]
    exact assocGet_append_single k v l hmem

theorem assocInsert_overwrite {κ α : Type} [DecidableEq κ] (k : κ) (v w : α)
    (l : List (κ × α)) :
    assocInsert k w (assocInsert k v l) = assocInsert k w l := by
  by_cases hmem : k ∈ l.map Prod.fst
  · have hany := (assoc_any_iff_mem_keys k l).mpr hmem
    have hmem2 : k ∈ (l.map (fun p => if p.1 = k then (k, v) else p)).map Prod.fst := by
      rw [assoc_map_update_keys]; exact hmem
    unfold assocInsert
    rw [if_pos hany, if_pos ((assoc_any_iff_mem_keys k _).mpr hmem2), if_pos hany,
      List.map_map]
    apply List.map_congr_left
    intro p _hp
    by_cases hpk : p.1 = k
    · simp [hpk]
    · simp [hpk]
  · rw [assocInsert_of_not_mem_keys v hmem, assocInsert_of_not_mem_keys w hmem]
    have hmem2 : k ∈ (l ++ [(k, v)]).map Prod.fst := by
      rw [List.map_append]
      exact List.mem_append_right _ (by simp)
    unfold assocInsert
    rw [if_pos ((assoc_any_iff_mem_keys k _).mpr hmem2), List.map_append]
    have hl : l.map (fun p => if p.1 = k then (k, w) else p) = l := by
      apply assoc_map_update_of_not_mem
      intro p hp hk
      exact hmem (hk ▸ List.mem_map_of_mem Prod.fst hp)
    rw [hl]
    simp

theorem assoc_nodup_eq_of_key {κ α : Type} [DecidableEq κ] {k : κ} {v : α}
    {l : List (κ × α)} (hnd : (l.map Prod.fst).Nodup) (hmem : (k, v) ∈ l) :
    ∀ p ∈ l, p.1 = k → p = (k, v) := by
  induction l with
  | nil => simp
  | cons q rest ih =>
      rw [List.map_cons, List.nodup_cons] at hnd
      intro p hp hpk
      rcases List.mem_cons.mp hmem with hm1 | hm2
      · rcases List.mem_cons.mp hp with hp1 | hp2
        · exact hp1.trans hm1.symm
        · exfalso
          have hqk : q.1 = k := by rw [← hm1]
          have hin : k ∈ rest.map Prod.fst := by
            rw [← hpk]; exact List.mem_map_of_mem Prod.fst hp2
          exact hnd.1 (hqk ▸ hin)
      · rcases List.mem_cons.mp hp with hp1 | hp2
        · exfalso
          apply hnd.1
          have hqk : q.1 = k := by rw [← hp1]; exact hpk
          rw [hqk]
          exact List.mem_map.mpr ⟨(k, v), hm2, rfl⟩
        · exact ih hnd.2 hm2 p hp2 hpk

theorem assocInsert_self_of_get {κ α : Type} [DecidableEq κ] {k : κ} {v : α}
    {l : List (κ × α)} (hnd : (l.map Prod.fst).Nodup)
    (hget : assocGet k l = some v) : assocInsert k v l = l := by
  have hmem : (k, v) ∈ l := assocGet_some_mem hget
  have hk : k ∈ l.map Prod.fst := List.mem_map.mpr ⟨(k, v), hmem, rfl⟩
  unfold assocInsert
  rw [if_pos ((assoc_any_iff_mem_keys k l).mpr hk)]
  have hpt : ∀ p ∈ l, (if p.1 = k then (k, v) else p) = p := by
    intro p hp
    by_cases hpk : p.1 = k
    · rw [if_pos hpk, assoc_nodup_eq_of_key hnd hmem p hp hpk]
    · rw [if_neg hpk]
  rw [List.map_congr_left hpt]
  simp

/-! ## Claim C1: inbound message classification -/

/-- C1 (counterexample): a message that parses to a JSON object with
none of `id`, `method`, `error` — e.g. the text `{}` — is only logged by
`Handler<IncomingMessage>`: no synthetic parse-error event is forwarded,
contradicting the claim that such messages are never dropped silently. -/
theorem c1_empty_envelope_dropped_silently :
    (classifyInbound (.ok ⟨none, none, none, none, none, none⟩)).isSilentDrop = true := rfl

/-- C1 (amended): classification follows the code's rule — `id` present
→ response; `id` absent and `method` present → event; `id` absent and
`error` present → synthetic `Protocol.error` event; unparseable text →
synthetic `Protocol.deserializeError` event; and a parseable object with
none of `id`, `method`, `error` is logged and dropped (the only silent
drop). -/
theorem c1_inbound_classification (p : ParsedMessage) :
    ((classifyInbound p).isSilentDrop = true ↔
      ∃ j, p = .ok j ∧ j.id = none ∧ j.method = none ∧ j.error = none)
    ∧ (∀ e raw, classifyInbound (.parseErr e raw) =
        .event none "Protocol.deserializeError"
          (.obj [("error", .str e), ("raw", .str raw)]))
    ∧ (∀ j rid, p = .ok j → j.id = some rid →
        classifyInbound p = .response ⟨rid, j.result, j.error⟩)
    ∧ (∀ j m, p = .ok j → j.id = none → j.method = some m →
        classifyInbound p = .event j.session_id m (j.params.getD .null))
    ∧ (∀ j err, p = .ok j → j.id = none → j.method = none → j.error = some err →
        classifyInbound p = .event none "Protocol.error" err.toValue) := by
  refine ⟨?_, fun e raw => rfl, ?_, ?_, ?_⟩
  · constructor
    · intro h
      match p with
      | .parseErr e raw => simp [classifyInbound, InboundAction.isSilentDrop] at h
      | .ok j =>
          refine ⟨j, rfl, ?_⟩
          match hid : j.id with
          | some i => simp [classifyInbound, hid, InboundAction.isSilentDrop] at h
          | none =>
            match hm : j.method with
            | some m => simp [classifyInbound, hid, hm, InboundAction.isSilentDrop] at h
            | none =>
              match he : j.error with
              | some err => simp [classifyInbound, hid, hm, he, InboundAction.isSilentDrop] at h
              | none => exact ⟨rfl, rfl, rfl⟩
    · rintro ⟨j, rfl, hid, hm, he⟩
      simp [classifyInbound, hid, hm, he, InboundAction.isSilentDrop]
  · rintro j rid rfl hid
    simp [classifyInbound, hid]
  · rintro j m rfl hid hm
    simp [classifyInbound, hid, hm]
  · rintro j err rfl hid hm he
    simp [classifyInbound, hid, hm, he]

/-- C1 witness: a parsed envelope with `id = 1` classifies as a response
to id 1. -/
theorem c1_inbound_classification_witness :
    classifyInbound (.ok ⟨some 1, none, none, none, none, none⟩) =
      .response ⟨1, none, none⟩ :=
  (c1_inbound_classification (.ok ⟨some 1, none, none, none, none, none⟩)).2.2.1
    ⟨some 1, none, none, none, none, none⟩ 1 rfl rfl

/-! ## Claim C2: connection status updates and the pending map -/

/-- C2 (counterexample): a graceful disconnect (`Disconnected(None)`)
delivered to the multiplexer with one pending request leaves the pending
map untouched and resolves nothing, contradicting the claim that every
`Disconnected(err)` or `FailedToStart(err)` drains the pending map; the
same holds for `FailedToStart`. -/
theorem c2_graceful_disconnect_keeps_pending :
    (handleStatusUpdate (.disconnected none)
        ⟨2, [(1, ⟨"Browser.getVersion"⟩)]⟩).1.pending = [(1, ⟨"Browser.getVersion"⟩)]
    ∧ (handleStatusUpdate (.disconnected none)
        ⟨2, [(1, ⟨"Browser.getVersion"⟩)]⟩).2 = []
    ∧ handleStatusUpdate (.failedToStart .timeout)
        ⟨2, [(1, ⟨"Browser.getVersion"⟩)]⟩ =
      (⟨2, [(1, ⟨"Browser.getVersion"⟩)]⟩, []) :=
  ⟨rfl, rfl, rfl⟩

/-- C2 (amended): only `Disconnected(Some(err))` drains the pending map
— every pending sink is then resolved with `Err(Transport(err))` and the
map becomes empty — while `Disconnected(None)` (graceful) and
`FailedToStart(err)` leave the pending map untouched and resolve no
sink. -/
theorem c2_status_update_drains_only_on_error (err : TransportError)
    (e : TransportError) (s : CmdState) :
    (handleStatusUpdate (.disconnected (some err)) s).1.pending = []
    ∧ (∀ p ∈ s.pending,
        (p.1, (Except.error (.transport err) : CommandResult)) ∈
          (handleStatusUpdate (.disconnected (some err)) s).2)
    ∧ handleStatusUpdate (.disconnected none) s = (s, [])
    ∧ handleStatusUpdate (.failedToStart e) s = (s, []) := by
  refine ⟨rfl, ?_, rfl, rfl⟩
  intro p hp
  simp only [handleStatusUpdate, List.mem_map]
  exact ⟨p, hp, rfl⟩

/-- C2 witness: with one pending request and an erroring disconnect, the
sink for id 1 is resolved with the transport error. -/
theorem c2_status_update_drains_only_on_error_witness :
    ((1 : Int), (Except.error (.transport (.connectionFailed "reset")) : CommandResult)) ∈
      (handleStatusUpdate (.disconnected (some (.connectionFailed "reset")))
        ⟨2, [(1, ⟨"Browser.getVersion"⟩)]⟩).2 :=
  (c2_status_update_drains_only_on_error (.connectionFailed "reset") .timeout
    ⟨2, [(1, ⟨"Browser.getVersion"⟩)]⟩).2.1 (1, ⟨"Browser.getVersion"⟩) (by simp)

/-! ## Claim C6: WebSocket receive and control frames -/

/-- C6 (code bug): the `Ping` arm of `WebSocketTransport::receive` runs
`self.receive().await;` as a discarded statement (websocket.rs line 195)
before returning `self.receive().await` (line 205), so the first data
message after a ping is consumed and thrown away.  Concretely, on the
frame sequence `[Ping, Text "a", Text "b"]` the caller receives `"b"`
and `"a"` is never yielded; on `[Ping, Text "a"]` the caller sees a
graceful end of stream and `"a"` is lost.  The general shape shows every
ping eats the message that follows it. -/
theorem c6_ping_discards_following_message :
    wsReceive [.ping "p", .text "a", .text "b"] = (some (.ok "b"), [])
    ∧ wsReceive [.ping "p", .text "a"] = (none, [])
    ∧ (∀ (d t1 t2 : String) (rest : List WsFrame),
        wsReceive (.ping d :: .text t1 :: .text t2 :: rest) = (some (.ok t2), rest)) := by
  refine ⟨rfl, rfl, ?_⟩
  intro d t1 t2 rest
  show wsReceiveGo (rest.length + 3) _ = _
  simp [wsReceiveGo]

/-! ## Claim C7: connection start-up status updates -/

/-- C7 (counterexample): when `transport.connect()` fails (here with
`ConnectionFailed("connection refused")`), the connection manager does
not publish `FailedToStart` — it publishes `Disconnected(Some(err))`
(connection.rs lines 167-170) — contradicting the claim. -/
theorem c7_connect_failure_not_failed_to_start :
    publishesFailedToStart (startStatusUpdates
      (.connectError (.connectionFailed "connection refused"))) = false
    ∧ publishesDisconnected (startStatusUpdates
      (.connectError (.connectionFailed "connection refused"))) = true :=
  ⟨rfl, rfl⟩

/-- C7 (amended): only a transport-creation failure publishes
`FailedToStart(err)`; a `connect()` error publishes
`Disconnected(Some(err))` and a connect timeout publishes
`Disconnected(Some(Timeout))`.  In none of the failing runs is
`Connected` published, and each run stops after its terminal state. -/
theorem c7_startup_status_updates (e : TransportError) :
    startStatusUpdates (.createFailed e) = [.connecting, .failedToStart e]
    ∧ startStatusUpdates (.connectError e) = [.connecting, .disconnected (some e)]
    ∧ startStatusUpdates .timedOut = [.connecting, .disconnected (some .timeout)]
    ∧ ConnectionState.connected ∉ startStatusUpdates (.createFailed e)
    ∧ ConnectionState.connected ∉ startStatusUpdates (.connectError e)
    ∧ ConnectionState.connected ∉ startStatusUpdates .timedOut := by
  refine ⟨rfl, rfl, rfl, ?_, ?_, ?_⟩ <;> simp [startStatusUpdates]

/-! ## Claim C9: transport selection by URL scheme -/

/-- C9 (counterexample): the claim says the scheme parser is
case-insensitive, but `create_transport` uses `str::starts_with` on the
lowercase literals: the URL `WS://host` is rejected with
`UnsupportedScheme`. -/
theorem c9_uppercase_scheme_rejected :
    isUnsupportedScheme (createTransport
      ['W', 'S', ':', '/', '/', 'h', 'o', 's', 't']) = true := rfl

/-- C9 (amended): scheme matching is case-sensitive.  For every URL,
transport creation succeeds (selecting the WebSocket transport) exactly
when the URL starts with the lowercase literal `ws://` or `wss://`;
every URL that starts with neither fails with an unsupported-scheme
error — including the same schemes in other letter cases (e.g. `WS://`,
`Wss://`). -/
theorem c9_scheme_matching_case_sensitive (url rest : List Char) :
    (createTransport url = .ok .webSocket ↔
      (∃ tail, url = wsScheme ++ tail) ∨ (∃ tail, url = wssScheme ++ tail))
    ∧ ((∀ tail, url ≠ wsScheme ++ tail) → (∀ tail, url ≠ wssScheme ++ tail) →
        isUnsupportedScheme (createTransport url) = true)
    ∧ createTransport (wsScheme ++ rest) = .ok .webSocket
    ∧ createTransport (wssScheme ++ rest) = .ok .webSocket
    ∧ isUnsupportedScheme (createTransport (['W', 'S', ':', '/', '/'] ++ rest)) = true
    ∧ isUnsupportedScheme (createTransport (['W', 's', 's', ':', '/', '/'] ++ rest)) = true := by
  have htake_ws : url.take 5 = wsScheme ↔ ∃ tail, url = wsScheme ++ tail := by
    constructor
    · intro h
      refine ⟨url.drop 5, ?_⟩
      rw [← h]
      exact (List.take_append_drop 5 url).symm
    · rintro ⟨tail, rfl⟩
      rfl
  have htake_wss : url.take 6 = wssScheme ↔ ∃ tail, url = wssScheme ++ tail := by
    constructor
    · intro h
      refine ⟨url.drop 6, ?_⟩
      rw [← h]
      exact (List.take_append_drop 6 url).symm
    · rintro ⟨tail, rfl⟩
      rfl
  refine ⟨?_, ?_, rfl, rfl, rfl, rfl⟩
  · unfold createTransport
    by_cases hc : url.take 5 = wsScheme ∨ url.take 6 = wssScheme
    · rw [if_pos hc]
      constructor
      · intro _
        rcases hc with h | h
        · exact Or.inl (htake_ws.mp h)
        · exact Or.inr (htake_wss.mp h)
      · intro _
        rfl
    · rw [if_neg hc]
      constructor
      · intro h
        exact Except.noConfusion h
      · rintro (⟨tail, rfl⟩ | ⟨tail, rfl⟩)
        · exact absurd (Or.inl rfl) hc
        · exact absurd (Or.inr rfl) hc
  · intro h1 h2
    unfold createTransport
    rw [if_neg]
    · rfl
    rintro (hw | hws)
    · rcases htake_ws.mp hw with ⟨tail, htail⟩
      exact h1 tail htail
    · rcases htake_wss.mp hws with ⟨tail, htail⟩
      exact h2 tail htail

/-- C9 witness: the URL `http://h` starts with neither lowercase scheme,
and transport creation rejects it with an unsupported-scheme error. -/
theorem c9_scheme_matching_case_sensitive_witness :
    isUnsupportedScheme (createTransport
      ['h', 't', 't', 'p', ':', '/', '/', 'h']) = true :=
  (c9_scheme_matching_case_sensitive
      ['h', 't', 't', 'p', ':', '/', '/', 'h'] []).2.1
    (fun tail h => by
      injection h with h1 _
      exact absurd h1 (by decide))
    (fun tail h => by
      injection h with h1 _
      exact absurd h1 (by decide))

/-! ## Key-set lemmas for insertion and removal -/

theorem mem_keys_assocInsert_self {κ α : Type} [DecidableEq κ] (k : κ) (v : α)
    (l : List (κ × α)) : k ∈ (assocInsert k v l).map Prod.fst := by
  apply (assocGet_isSome_iff_mem_keys k _).mp
  rw [assocGet_assocInsert_self]
  rfl

theorem mem_keys_assocInsert_of_mem {κ α : Type} [DecidableEq κ] (k : κ) (v : α)
    (l : List (κ × α)) {x : κ} (hx : x ∈ l.map Prod.fst) :
    x ∈ (assocInsert k v l).map Prod.fst := by
  unfold assocInsert
  by_cases hany : (l.any (fun p => p.1 = k)) = true
  · rw [if_pos hany, assoc_map_update_keys]
    exact hx
  · rw [if_neg hany, List.map_append]
    exact List.mem_append_left _ hx

theorem mem_keys_assocRemove_of_ne {κ α : Type} [DecidableEq κ] {k x : κ}
    {l : List (κ × α)} (hx : x ∈ l.map Prod.fst) (hne : x ≠ k) :
    x ∈ (assocRemove k l).map Prod.fst := by
  rcases List.mem_map.mp hx with ⟨p, hp, hpx⟩
  apply List.mem_map.mpr
  refine ⟨p, ?_, hpx⟩
  unfold assocRemove
  apply List.mem_filter.mpr
  refine ⟨hp, ?_⟩
  simp [hpx, hne]

/-! ## Claim C5: event fan-out with session wildcard -/

/-- C5 (confirmed): a published event reaches exactly the union of the
subscribers under `(method, event.session)` and — when `event.session`
is not `None` — the subscribers under the wildcard key `(method, None)`;
the recipient set is a `HashSet`, so each matching sink receives exactly
one copy, and sinks under every other key receive nothing. -/
theorem c5_event_fanout (ev : ProtocolEvent) (m : SubscriptionMap) (s : Sink) :
    (s ∈ publishRecipients ev m ↔
      s ∈ subLookup (ev.method, ev.session_id) m
      ∨ (ev.session_id ≠ none ∧ s ∈ subLookup (ev.method, none) m))
    ∧ Multiset.count s (publishDeliveries ev m)
        = (if s ∈ publishRecipients ev m then 1 else 0) := by
  constructor
  · cases hsess : ev.session_id with
    | none => simp [publishRecipients, hsess]
    | some sid =>
        have hne : ((ev.method, some sid) : SubKey) ≠ (ev.method, none) := by simp
        simp [publishRecipients, hsess, hne, Finset.mem_union]
  · unfold publishDeliveries
    rw [Multiset.count_eq_of_nodup (publishRecipients ev m).nodup]
    rfl

/-! ## Claim C8: subscribe/unsubscribe round-trip -/

/-- C8 (counterexample): when the sink is already subscribed under the
key, `subscribe` is a no-op but `unsubscribe` still removes it, so the
round trip does not restore the pre-subscribe state: starting from the
map `{("e", None) ↦ {0}}`, subscribe-then-unsubscribe yields the empty
map. -/
theorem c8_roundtrip_fails_when_already_subscribed :
    unsubscribe "e" none 0 (subscribe "e" none 0 [(("e", none), {0})]) = []
    ∧ [((("e", none) : SubKey), ({0} : Finset Sink))] ≠ [] := by
  refine ⟨?_, by simp⟩
  rfl

/-- C8 (amended): subscribe-then-unsubscribe restores the pre-subscribe
map whenever the sink was not already subscribed under that key;
`subscribe` is a no-op when the sink is already present; and
`unsubscribe` purges a key whose subscriber set becomes empty. -/
theorem subLookup_get_none {name : String} {sess : Option String}
    {m : SubscriptionMap} (h : assocGet ((name, sess) : SubKey) m = none) :
    subLookup (name, sess) m = ∅ := by
  unfold subLookup
  rw [h]
  rfl

theorem subLookup_get_some {name : String} {sess : Option String}
    {m : SubscriptionMap} {B : Finset Sink}
    (h : assocGet ((name, sess) : SubKey) m = some B) :
    subLookup (name, sess) m = B := by
  unfold subLookup
  rw [h]
  rfl

theorem unsubscribe_get_none {name : String} {sess : Option String}
    {m : SubscriptionMap} (s : Sink)
    (h : assocGet ((name, sess) : SubKey) m = none) :
    unsubscribe name sess s m = m := by
  unfold unsubscribe
  rw [h]

theorem unsubscribe_get_some {name : String} {sess : Option String}
    {m : SubscriptionMap} {B : Finset Sink} (s : Sink)
    (h : assocGet ((name, sess) : SubKey) m = some B) :
    unsubscribe name sess s m =
      if B.erase s = ∅ then assocRemove ((name, sess) : SubKey) m
      else assocInsert ((name, sess) : SubKey) (B.erase s) m := by
  unfold unsubscribe
  rw [h]

theorem c8_subscription_roundtrip :
    (∀ (m : SubscriptionMap) (name : String) (sess : Option String) (s : Sink),
        SubWF m → s ∉ subLookup (name, sess) m →
        unsubscribe name sess s (subscribe name sess s m) = m)
    ∧ (∀ (m : SubscriptionMap) (name : String) (sess : Option String) (s : Sink),
        SubWF m → s ∈ subLookup (name, sess) m →
        subscribe name sess s m = m)
    ∧ (∀ (m : SubscriptionMap) (name : String) (sess : Option String) (s : Sink),
        subLookup (name, sess) m = {s} →
        ∀ e ∈ unsubscribe name sess s m, e.1 ≠ (name, sess)) := by
  refine ⟨?_, ?_, ?_⟩
  · intro m name sess s hwf hs
    cases hg : assocGet ((name, sess) : SubKey) m with
    | none =>
        have hkeys : ((name, sess) : SubKey) ∉ m.map Prod.fst := by
          intro hmem
          have := (assocGet_isSome_iff_mem_keys _ m).mpr hmem
          rw [hg] at this
          simp at this
        have hsub : subscribe name sess s m = m ++ [((name, sess), {s})] := by
          unfold subscribe
          rw [subLookup_get_none hg, assocInsert_of_not_mem_keys _ hkeys]
          simp
        rw [hsub]
        have hget2 : assocGet ((name, sess) : SubKey) (m ++ [((name, sess), {s})]) =
            some {s} := assocGet_append_single _ _ _ hkeys
        rw [unsubscribe_get_some s hget2]
        have herase : ({s} : Finset Sink).erase s = ∅ := by simp
        rw [if_pos herase]
        unfold assocRemove
        rw [List.filter_append]
        have h1 : m.filter (fun p => p.1 ≠ ((name, sess) : SubKey)) = m := by
          apply List.filter_eq_self.mpr
          intro p hp
          have hne : p.1 ≠ ((name, sess) : SubKey) := by
            intro hk
            exact hkeys (hk ▸ List.mem_map_of_mem Prod.fst hp)
          simpa using hne
        rw [h1]
        simp
    | some B =>
        have hsB : s ∉ B := by
          rw [subLookup_get_some hg] at hs
          exact hs
        have hBne : B ≠ ∅ := by
          intro hB
          exact hwf.2 ((name, sess), B) (assocGet_some_mem hg) hB
        have hsub : subscribe name sess s m =
            assocInsert ((name, sess) : SubKey) (insert s B) m := by
          unfold subscribe
          rw [subLookup_get_some hg]
        rw [hsub]
        rw [unsubscribe_get_some s (assocGet_assocInsert_self _ _ _)]
        have herase : (insert s B).erase s = B := Finset.erase_insert hsB
        rw [herase, if_neg hBne, assocInsert_overwrite]
        exact assocInsert_self_of_get hwf.1 hg
  · intro m name sess s hwf hs
    cases hg : assocGet ((name, sess) : SubKey) m with
    | none =>
        rw [subLookup_get_none hg] at hs
        simp at hs
    | some B =>
        have hsB : s ∈ B := by
          rw [subLookup_get_some hg] at hs
          exact hs
        unfold subscribe
        rw [subLookup_get_some hg, Finset.insert_eq_self.mpr hsB]
        exact assocInsert_self_of_get hwf.1 hg
  · intro m name sess s hlook e he
    cases hg : assocGet ((name, sess) : SubKey) m with
    | none =>
        rw [subLookup_get_none hg] at hlook
        exact absurd hlook.symm (Finset.singleton_ne_empty s)
    | some B =>
        have hB : B = {s} := by
          rw [subLookup_get_some hg] at hlook
          exact hlook
        rw [unsubscribe_get_some s hg, hB] at he
        have herase : ({s} : Finset Sink).erase s = ∅ := by simp
        rw [if_pos herase] at he
        unfold assocRemove at he
        have := List.mem_filter.mp he
        simpa using this.2


/-- C8 witness: on the empty router state, subscribing then
unsubscribing sink 0 under `("Page.loadEventFired", None)` restores the
empty map. -/
theorem c8_subscription_roundtrip_witness :
    unsubscribe "Page.loadEventFired" none 0
      (subscribe "Page.loadEventFired" none 0 []) = [] :=
  c8_subscription_roundtrip.1 [] "Page.loadEventFired" none 0
    ⟨List.nodup_nil, fun e he => absurd he (List.not_mem_nil e)⟩
    (by simp [subLookup, assocGet])

/-! ## Claim C10: page actors always have a session id -/

/-- C10 (confirmed): the browser actor's invariant
`keys(page_actors) ⊆ keys(target_sessions)` holds initially and is
preserved by every operation: `attachedToTarget` records the session id
before creating a page actor, `detachedFromTarget` and `targetDestroyed`
remove the page actor together with its session entry, and `stopping`
clears both maps. -/
theorem c10_page_actor_session_invariant (op : BrowserOp) (s : BrowserState)
    (h : browserInv s) :
    browserInv BrowserState.init ∧ browserInv (applyBrowserOp op s) := by
  refine ⟨fun tid htid => absurd htid (List.not_mem_nil tid), ?_⟩
  cases op with
  | stopping => exact fun tid htid => absurd htid (List.not_mem_nil tid)
  | event e =>
      show browserInv (handleTargetEvent e s)
      cases e with
      | targetCreated tid' isPage => exact h
      | targetInfoChanged => exact h
      | parseFailed => exact h
      | otherEvent => exact h
      | attachedToTarget sid tid' isPage =>
          simp only [handleTargetEvent]
          split
          · split
            · intro tid htid
              exact mem_keys_assocInsert_of_mem tid' sid _ (h tid htid)
            · intro tid htid
              rcases List.mem_append.mp htid with hold | hnew
              · exact mem_keys_assocInsert_of_mem tid' sid _ (h tid hold)
              · have heq : tid = tid' := by simpa using hnew
                rw [heq]
                exact mem_keys_assocInsert_self tid' sid _
          · exact h
      | detachedFromTarget sid =>
          simp only [handleTargetEvent]
          split
          next entry heq =>
            intro tid htid
            have hmem := List.mem_filter.mp htid
            have hne : tid ≠ entry.1 := by simpa using hmem.2
            exact mem_keys_assocRemove_of_ne (h tid hmem.1) hne
          next heq => exact h
      | targetDestroyed tid' =>
          simp only [handleTargetEvent]
          intro tid htid
          have hmem := List.mem_filter.mp htid
          have hne : tid ≠ tid' := by simpa using hmem.2
          exact mem_keys_assocRemove_of_ne (h tid hmem.1) hne

/-- C10 witness: attaching to page target `T1` with session `S1` from
the initial state preserves the invariant. -/
theorem c10_page_actor_session_invariant_witness :
    browserInv (applyBrowserOp (.event (.attachedToTarget "S1" "T1" true))
      BrowserState.init) :=
  (c10_page_actor_session_invariant (.event (.attachedToTarget "S1" "T1" true))
    BrowserState.init (by decide)).2

/-! ## CommandActor handler equations and invariant preservation -/

theorem handleResponse_get_none {r : JsonRpcResponse} {s : CmdState}
    (h : assocGet r.id s.pending = none) : handleResponse r s = (s, []) := by
  unfold handleResponse
  rw [h]

theorem handleResponse_get_some {r : JsonRpcResponse} {s : CmdState}
    {pi : PendingRequestInfo} (h : assocGet r.id s.pending = some pi) :
    handleResponse r s =
      ({ s with pending := assocRemove r.id s.pending },
       [(r.id, responsePayload r)]) := by
  unfold handleResponse
  rw [h]

theorem handleTimeout_get_none {id : Int} {s : CmdState}
    (h : assocGet id s.pending = none) : handleTimeout id s = (s, []) := by
  unfold handleTimeout
  rw [h]

theorem handleTimeout_get_some {id : Int} {s : CmdState}
    {pi : PendingRequestInfo} (h : assocGet id s.pending = some pi) :
    handleTimeout id s =
      ({ s with pending := assocRemove id s.pending },
       [(id, .error .timeout)]) := by
  unfold handleTimeout
  rw [h]

theorem handleSendFailure_get_none {id : Int} {err : InternalError} {s : CmdState}
    (h : assocGet id s.pending = none) : handleSendFailure id err s = (s, []) := by
  unfold handleSendFailure
  rw [h]

theorem handleSendFailure_get_some {id : Int} {err : InternalError} {s : CmdState}
    {pi : PendingRequestInfo} (h : assocGet id s.pending = some pi) :
    handleSendFailure id err s =
      ({ s with pending := assocRemove id s.pending }, [(id, .error err)]) := by
  unfold handleSendFailure
  rw [h]

theorem handleResponse_next_id (r : JsonRpcResponse) (s : CmdState) :
    (handleResponse r s).1.next_id = s.next_id := by
  unfold handleResponse
  split <;> rfl

theorem handleTimeout_next_id (id : Int) (s : CmdState) :
    (handleTimeout id s).1.next_id = s.next_id := by
  unfold handleTimeout
  split <;> rfl

theorem handleSendFailure_next_id (id : Int) (err : InternalError) (s : CmdState) :
    (handleSendFailure id err s).1.next_id = s.next_id := by
  unfold handleSendFailure
  split <;> rfl

theorem handleStatusUpdate_next_id (st : ConnectionState) (s : CmdState) :
    (handleStatusUpdate st s).1.next_id = s.next_id := by
  unfold handleStatusUpdate
  split <;> rfl

theorem handleIncoming_next_id (p : ParsedMessage) (s : CmdState) :
    (handleIncoming p s).1.next_id = s.next_id := by
  unfold handleIncoming
  split
  · exact handleResponse_next_id _ _
  · rfl
  · rfl

/-- On every non-send message `next_id` is untouched; a send increments
it by one. -/
theorem stepCmd_state_next_id (m : CmdMsg) (s : CmdState) :
    (stepCmd m s).state.next_id =
      (match m with
       | .send _ _ => s.next_id + 1
       | _ => s.next_id) := by
  cases m with
  | send serErr method => cases serErr <;> rfl
  | incoming p => exact handleIncoming_next_id p s
  | timeoutFired id => exact handleTimeout_next_id id s
  | status st => exact handleStatusUpdate_next_id st s
  | sendFailure id err => exact handleSendFailure_next_id id err s

theorem not_mem_keys_assocRemove_self {κ α : Type} [DecidableEq κ] (k : κ)
    (l : List (κ × α)) : k ∉ (assocRemove k l).map Prod.fst := by
  intro hmem
  rcases List.mem_map.mp hmem with ⟨p, hp, hpk⟩
  have := (List.mem_filter.mp hp).2
  simp only [decide_eq_true_eq] at this
  exact this hpk

theorem mem_keys_of_mem_keys_assocRemove {κ α : Type} [DecidableEq κ] {k x : κ}
    {l : List (κ × α)} (h : x ∈ (assocRemove k l).map Prod.fst) :
    x ∈ l.map Prod.fst := by
  rcases List.mem_map.mp h with ⟨p, hp, hpx⟩
  exact List.mem_map.mpr ⟨p, (List.mem_filter.mp hp).1, hpx⟩

/-- Removing a key preserves the pending-map invariant. -/
theorem cmdInv_assocRemove {s : CmdState} (id : Int) (h : CmdInv s) :
    CmdInv ⟨s.next_id, assocRemove id s.pending⟩ := by
  constructor
  · have hsub : List.Sublist ((assocRemove id s.pending).map Prod.fst)
        (s.pending.map Prod.fst) :=
      (List.filter_sublist _).map Prod.fst
    exact h.1.sublist hsub
  · intro p hp
    show p.1 < s.next_id
    exact h.2 p (List.mem_filter.mp hp).1

/-- Every `CommandActor` message dispatch preserves the pending-map
invariant: unique keys, all strictly below `next_id`. -/
theorem cmdInv_stepCmd (m : CmdMsg) (s : CmdState) (h : CmdInv s) :
    CmdInv (stepCmd m s).state := by
  cases m with
  | send serErr method =>
      cases serErr with
      | some e =>
          refine ⟨h.1, fun p hp => ?_⟩
          have := h.2 p hp
          show p.1 < s.next_id + 1
          omega
      | none =>
          have hfresh : s.next_id ∉ s.pending.map Prod.fst := by
            intro hmem
            rcases List.mem_map.mp hmem with ⟨p, hp, hpk⟩
            exact absurd (h.2 p hp) (by rw [hpk]; exact lt_irrefl _)
          show CmdInv ⟨s.next_id + 1, assocInsert s.next_id ⟨method⟩ s.pending⟩
          rw [assocInsert_of_not_mem_keys _ hfresh]
          constructor
          · rw [List.map_append]
            rw [List.nodup_append]
            refine ⟨h.1, List.nodup_singleton _, ?_⟩
            intro a ha hb
            have hlt : a < s.next_id := by
              rcases List.mem_map.mp ha with ⟨p, hp, hpk⟩
              exact hpk ▸ h.2 p hp
            have : a = s.next_id := by simpa using hb
            omega
          · intro p hp
            show p.1 < s.next_id + 1
            rcases List.mem_append.mp hp with hold | hnew
            · have := h.2 p hold
              omega
            · have hpv : p = (s.next_id, ⟨method⟩) := by simpa using hnew
              rw [hpv]
              show s.next_id < s.next_id + 1
              omega
  | incoming p =>
      show CmdInv (handleIncoming p s).1
      unfold handleIncoming
      split
      · next r _ =>
          cases hg : assocGet r.id s.pending with
          | none => rw [handleResponse_get_none hg]; exact h
          | some pi => rw [handleResponse_get_some hg]; exact cmdInv_assocRemove r.id h
      · exact h
      · exact h
  | timeoutFired id =>
      show CmdInv (handleTimeout id s).1
      cases hg : assocGet id s.pending with
      | none => rw [handleTimeout_get_none hg]; exact h
      | some pi => rw [handleTimeout_get_some hg]; exact cmdInv_assocRemove id h
  | status st =>
      show CmdInv (handleStatusUpdate st s).1
      unfold handleStatusUpdate
      split
      · exact ⟨List.nodup_nil, fun p hp => absurd hp (List.not_mem_nil p)⟩
      · exact h
  | sendFailure id err =>
      show CmdInv (handleSendFailure id err s).1
      cases hg : assocGet id s.pending with
      | none => rw [handleSendFailure_get_none hg]; exact h
      | some pi => rw [handleSendFailure_get_some hg]; exact cmdInv_assocRemove id h

/-- The invariant holds in every reachable state. -/
theorem cmdInv_runTrace (t : List CmdMsg) : ∀ s : CmdState, CmdInv s →
    CmdInv (runTrace s t).1 := by
  induction t with
  | nil => exact fun s h => h
  | cons m rest ih => exact fun s h => ih _ (cmdInv_stepCmd m s h)

/-- The ids a run allocates are exactly `next_id, next_id + 1, …`, one
per `SendCommand`. -/
theorem runTrace_alloc (t : List CmdMsg) : ∀ s : CmdState,
    (runTrace s t).2.2 =
      (List.range (countSends t)).map (fun (n : Nat) => s.next_id + (n : Int)) := by
  induction t with
  | nil => intro s; rfl
  | cons m rest ih =>
      intro s
      show (stepCmd m s).allocated ++ (runTrace (stepCmd m s).state rest).2.2 = _
      rw [ih (stepCmd m s).state]
      cases m with
      | send serErr method =>
          have hnext : (stepCmd (.send serErr method) s).state.next_id = s.next_id + 1 :=
            stepCmd_state_next_id _ s
          have halloc : (stepCmd (.send serErr method) s).allocated = [s.next_id] := by
            cases serErr <;> rfl
          rw [hnext, halloc]
          show s.next_id :: _ = _
          have hcount : countSends (CmdMsg.send serErr method :: rest) =
              countSends rest + 1 := rfl
          rw [hcount, List.range_succ_eq_map, List.map_cons, List.map_map]
          congr 1
          · simp
          · apply List.map_congr_left
            intro n _
            show s.next_id + 1 + (n : Int) = s.next_id + ((Nat.succ n : Nat) : Int)
            push_cast
            ring
      | incoming p =>
          have hnext : (stepCmd (CmdMsg.incoming p) s).state.next_id = s.next_id :=
            stepCmd_state_next_id _ s
          rw [show (stepCmd (CmdMsg.incoming p) s).allocated = [] from rfl, hnext,
            List.nil_append]
          rfl
      | timeoutFired id =>
          have hnext : (stepCmd (CmdMsg.timeoutFired id) s).state.next_id = s.next_id :=
            stepCmd_state_next_id _ s
          rw [show (stepCmd (CmdMsg.timeoutFired id) s).allocated = [] from rfl, hnext,
            List.nil_append]
          rfl
      | status st =>
          have hnext : (stepCmd (CmdMsg.status st) s).state.next_id = s.next_id :=
            stepCmd_state_next_id _ s
          rw [show (stepCmd (CmdMsg.status st) s).allocated = [] from rfl, hnext,
            List.nil_append]
          rfl
      | sendFailure id err =>
          have hnext : (stepCmd (CmdMsg.sendFailure id err) s).state.next_id = s.next_id :=
            stepCmd_state_next_id _ s
          rw [show (stepCmd (CmdMsg.sendFailure id err) s).allocated = [] from rfl, hnext,
            List.nil_append]
          rfl

/-! ## Claim C3: id allocation -/

/-- C3 (confirmed): starting from `CommandActor::new` (`next_id = 1`),
the ids allocated over any mailbox trace are exactly `1, 2, 3, …` — the
first is 1 and each send allocates an id strictly greater than every
previously allocated one, so ids are unique and never reused — and in
every reachable state the pending map holds at most one live request per
id (its key list has no duplicates). -/
theorem c3_id_allocation (t : List CmdMsg) :
    (runTrace CommandActor.init t).2.2 =
      (List.range (countSends t)).map (fun (n : Nat) => 1 + (n : Int))
    ∧ (runTrace CommandActor.init t).2.2.Pairwise (· < ·)
    ∧ ((runTrace CommandActor.init t).1.pending.map Prod.fst).Nodup := by
  have halloc := runTrace_alloc t CommandActor.init
  refine ⟨halloc, ?_, ?_⟩
  · rw [halloc]
    refine List.Pairwise.map _ ?_ (List.pairwise_lt_range _)
    intro a b hab
    show (1 : Int) + a < 1 + b
    omega
  · exact (cmdInv_runTrace t CommandActor.init
      ⟨List.nodup_nil, fun p hp => absurd hp (List.not_mem_nil p)⟩).1

/-! ## Resolution counting for claim C4 -/

/-- Upper bound on how many more resolutions a given id can see from a
state: one if it is currently pending, plus one if it could still be
allocated (`next_id ≤ id`). -/
def resBound (s : CmdState) (id : Int) : Nat :=
  (if id ∈ s.pending.map Prod.fst then 1 else 0)
  + (if s.next_id ≤ id then 1 else 0)

theorem resCountFor_append (id : Int) (a b : List (Int × CommandResult)) :
    resCountFor id (a ++ b) = resCountFor id a + resCountFor id b := by
  simp [resCountFor, List.filter_append]

theorem resCountFor_single (id i : Int) (c : CommandResult) :
    resCountFor id [(i, c)] = if i = id then 1 else 0 := by
  by_cases h : i = id <;> simp [resCountFor, h]

theorem filter_key_length_le_one {α : Type} (id : Int) (l : List (Int × α))
    (hnd : (l.map Prod.fst).Nodup) :
    (l.filter (fun p => p.1 = id)).length ≤ if id ∈ l.map Prod.fst then 1 else 0 := by
  induction l with
  | nil => simp
  | cons p rest ih =>
      rw [List.map_cons, List.nodup_cons] at hnd
      by_cases hp : p.1 = id
      · have hidrest : id ∉ rest.map Prod.fst := hp ▸ hnd.1
        have hrest : rest.filter (fun p => p.1 = id) = [] := by
          rw [List.filter_eq_nil_iff]
          intro q hq
          simp only [decide_eq_true_eq]
          intro hqid
          exact hidrest (hqid ▸ List.mem_map_of_mem Prod.fst hq)
        rw [List.filter_cons, if_pos (by simpa using hp), hrest]
        have hmem : id ∈ (p :: rest).map Prod.fst := by
          rw [List.map_cons, hp]
          exact List.mem_cons_self _ _
        rw [if_pos hmem]
        simp
      · rw [List.filter_cons, if_neg (by simpa using hp)]
        have hiff : (id ∈ (p :: rest).map Prod.fst) ↔ id ∈ rest.map Prod.fst := by
          rw [List.map_cons, List.mem_cons]
          constructor
          · rintro (h1 | h2)
            · exact absurd h1.symm hp
            · exact h2
          · exact Or.inr
        by_cases hm : id ∈ rest.map Prod.fst
        · rw [if_pos (hiff.mpr hm)]
          have := ih hnd.2
          rw [if_pos hm] at this
          exact this
        · rw [if_neg (fun hc => hm (hiff.mp hc))]
          have := ih hnd.2
          rw [if_neg hm] at this
          exact this

theorem resCountFor_map_keys (id : Int) (l : List (Int × PendingRequestInfo))
    (f : Int × PendingRequestInfo → CommandResult) :
    resCountFor id (l.map (fun p => (p.1, f p)))
      = (l.filter (fun p => p.1 = id)).length := by
  unfold resCountFor
  rw [List.filter_map, List.length_map]
  rfl

/-- Monotonicity of the "could still be allocated" summand when
`next_id` increases. -/
theorem resBound_alloc_mono (n id : Int) :
    (if n + 1 ≤ id then (1 : Nat) else 0) ≤ (if n ≤ id then (1 : Nat) else 0) := by
  by_cases h2 : n + 1 ≤ id
  · rw [if_pos h2, if_pos (by omega)]
  · rw [if_neg h2]
    exact Nat.zero_le _

/-- A removal-style resolution (response, timeout, send failure) of a
pending id consumes the pending summand of the bound. -/
theorem resBound_after_remove (s : CmdState) {rid : Int}
    (hmem : rid ∈ s.pending.map Prod.fst) (c : CommandResult) (id : Int) :
    resCountFor id [(rid, c)]
      + resBound ⟨s.next_id, assocRemove rid s.pending⟩ id ≤ resBound s id := by
  show resCountFor id [(rid, c)]
      + ((if id ∈ (assocRemove rid s.pending).map Prod.fst then 1 else 0)
         + (if s.next_id ≤ id then 1 else 0))
    ≤ (if id ∈ s.pending.map Prod.fst then 1 else 0)
      + (if s.next_id ≤ id then 1 else 0)
  rw [resCountFor_single]
  by_cases h1 : rid = id
  · subst h1
    rw [if_pos rfl, if_pos hmem, if_neg (not_mem_keys_assocRemove_self rid _)]
    omega
  · rw [if_neg h1]
    have hle : (if id ∈ (assocRemove rid s.pending).map Prod.fst then (1 : Nat) else 0)
        ≤ (if id ∈ s.pending.map Prod.fst then (1 : Nat) else 0) := by
      by_cases hm : id ∈ (assocRemove rid s.pending).map Prod.fst
      · rw [if_pos hm, if_pos (mem_keys_of_mem_keys_assocRemove hm)]
      · rw [if_neg hm]
        exact Nat.zero_le _
    omega

/-- One dispatch never resolves more for an id than the bound releases. -/
theorem stepBound (m : CmdMsg) (s : CmdState) (hinv : CmdInv s) (id : Int) :
    resCountFor id (stepCmd m s).resolutions + resBound (stepCmd m s).state id
      ≤ resBound s id := by
  cases m with
  | send serErr method =>
      have hfreshP : id = s.next_id → id ∉ s.pending.map Prod.fst := by
        intro h1 hmem
        rcases List.mem_map.mp hmem with ⟨p, hp, hpk⟩
        have := hinv.2 p hp
        omega
      cases serErr with
      | some e =>
          show resCountFor id [(s.next_id, .error (.serialization e))]
              + ((if id ∈ s.pending.map Prod.fst then 1 else 0)
                 + (if s.next_id + 1 ≤ id then 1 else 0))
            ≤ (if id ∈ s.pending.map Prod.fst then 1 else 0)
              + (if s.next_id ≤ id then 1 else 0)
          rw [resCountFor_single]
          by_cases h1 : s.next_id = id
          · rw [if_pos h1, if_neg (hfreshP h1.symm), if_neg (by omega),
              if_pos (by omega)]
          · rw [if_neg h1]
            have := resBound_alloc_mono s.next_id id
            omega
      | none =>
          have hfresh : s.next_id ∉ s.pending.map Prod.fst := by
            intro hmem
            rcases List.mem_map.mp hmem with ⟨p, hp, hpk⟩
            have := hinv.2 p hp
            omega
          show resCountFor id []
              + ((if id ∈ (assocInsert s.next_id ⟨method⟩ s.pending).map Prod.fst
                  then 1 else 0)
                 + (if s.next_id + 1 ≤ id then 1 else 0))
            ≤ (if id ∈ s.pending.map Prod.fst then 1 else 0)
              + (if s.next_id ≤ id then 1 else 0)
          rw [assocInsert_of_not_mem_keys _ hfresh, List.map_append]
          have hcount : resCountFor id ([] : List (Int × CommandResult)) = 0 := rfl
          rw [hcount]
          by_cases h1 : id = s.next_id
          · subst h1
            rw [if_pos (List.mem_append_right _ (by simp)),
              if_neg (hfreshP rfl), if_neg (by omega), if_pos (by omega)]
          · have hiff : id ∈ s.pending.map Prod.fst ++ [(s.next_id, (⟨method⟩ : PendingRequestInfo))].map Prod.fst
                ↔ id ∈ s.pending.map Prod.fst := by
              constructor
              · intro hc
                rcases List.mem_append.mp hc with hold | hnew
                · exact hold
                · exact absurd (by simpa using hnew) h1
              · exact fun hc => List.mem_append_left _ hc
            have hle : (if id ∈ s.pending.map Prod.fst
                  ++ [(s.next_id, (⟨method⟩ : PendingRequestInfo))].map Prod.fst
                then (1 : Nat) else 0)
                = (if id ∈ s.pending.map Prod.fst then (1 : Nat) else 0) := by
              by_cases hm : id ∈ s.pending.map Prod.fst
              · rw [if_pos (hiff.mpr hm), if_pos hm]
              · rw [if_neg (fun hc => hm (hiff.mp hc)), if_neg hm]
            rw [hle]
            have := resBound_alloc_mono s.next_id id
            omega
  | incoming p =>
      cases hc : classifyInbound p with
      | response r =>
          have hstep : stepCmd (.incoming p) s =
              ⟨(handleResponse r s).1, (handleResponse r s).2, [], []⟩ := by
            show (⟨(handleIncoming p s).1, (handleIncoming p s).2.1,
              (handleIncoming p s).2.2, []⟩ : StepOut) = _
            unfold handleIncoming
            rw [hc]
          rw [hstep]
          cases hg : assocGet r.id s.pending with
          | none =>
              rw [handleResponse_get_none hg]
              have hcount : resCountFor id ([] : List (Int × CommandResult)) = 0 := rfl
              show resCountFor id [] + resBound s id ≤ resBound s id
              rw [hcount]
              omega
          | some pi =>
              rw [handleResponse_get_some hg]
              have hmem : r.id ∈ s.pending.map Prod.fst := by
                have : (assocGet r.id s.pending).isSome := by rw [hg]; rfl
                exact (assocGet_isSome_iff_mem_keys _ _).mp this
              exact resBound_after_remove s hmem (responsePayload r) id
      | event sess mth params =>
          have hstep : stepCmd (.incoming p) s = ⟨s, [], [⟨sess, mth, params⟩], []⟩ := by
            show (⟨(handleIncoming p s).1, (handleIncoming p s).2.1,
              (handleIncoming p s).2.2, []⟩ : StepOut) = _
            unfold handleIncoming
            rw [hc]
          rw [hstep]
          show resCountFor id [] + resBound s id ≤ resBound s id
          rw [show resCountFor id ([] : List (Int × CommandResult)) = 0 from rfl]
          omega
      | droppedWithWarning =>
          have hstep : stepCmd (.incoming p) s = ⟨s, [], [], []⟩ := by
            show (⟨(handleIncoming p s).1, (handleIncoming p s).2.1,
              (handleIncoming p s).2.2, []⟩ : StepOut) = _
            unfold handleIncoming
            rw [hc]
          rw [hstep]
          show resCountFor id [] + resBound s id ≤ resBound s id
          rw [show resCountFor id ([] : List (Int × CommandResult)) = 0 from rfl]
          omega
  | timeoutFired tid =>
      cases hg : assocGet tid s.pending with
      | none =>
          have hstep : stepCmd (.timeoutFired tid) s = ⟨s, [], [], []⟩ := by
            show (⟨(handleTimeout tid s).1, (handleTimeout tid s).2, [], []⟩ : StepOut) = _
            rw [handleTimeout_get_none hg]
          rw [hstep]
          show resCountFor id [] + resBound s id ≤ resBound s id
          rw [show resCountFor id ([] : List (Int × CommandResult)) = 0 from rfl]
          omega
      | some pi =>
          have hstep : stepCmd (.timeoutFired tid) s =
              ⟨{ s with pending := assocRemove tid s.pending },
               [(tid, .error .timeout)], [], []⟩ := by
            show (⟨(handleTimeout tid s).1, (handleTimeout tid s).2, [], []⟩ : StepOut) = _
            rw [handleTimeout_get_some hg]
          rw [hstep]
          have hmem : tid ∈ s.pending.map Prod.fst := by
            have : (assocGet tid s.pending).isSome := by rw [hg]; rfl
            exact (assocGet_isSome_iff_mem_keys _ _).mp this
          exact resBound_after_remove s hmem (.error .timeout) id
  | sendFailure fid err =>
      cases hg : assocGet fid s.pending with
      | none =>
          have hstep : stepCmd (.sendFailure fid err) s = ⟨s, [], [], []⟩ := by
            show (⟨(handleSendFailure fid err s).1, (handleSendFailure fid err s).2,
              [], []⟩ : StepOut) = _
            rw [handleSendFailure_get_none hg]
          rw [hstep]
          show resCountFor id [] + resBound s id ≤ resBound s id
          rw [show resCountFor id ([] : List (Int × CommandResult)) = 0 from rfl]
          omega
      | some pi =>
          have hstep : stepCmd (.sendFailure fid err) s =
              ⟨{ s with pending := assocRemove fid s.pending },
               [(fid, .error err)], [], []⟩ := by
            show (⟨(handleSendFailure fid err s).1, (handleSendFailure fid err s).2,
              [], []⟩ : StepOut) = _
            rw [handleSendFailure_get_some hg]
          rw [hstep]
          have hmem : fid ∈ s.pending.map Prod.fst := by
            have : (assocGet fid s.pending).isSome := by rw [hg]; rfl
            exact (assocGet_isSome_iff_mem_keys _ _).mp this
          exact resBound_after_remove s hmem (.error err) id
  | status st =>
      cases st with
      | disconnected errOpt =>
          cases errOpt with
          | some err =>
              show resCountFor id
                  (s.pending.map (fun p => (p.1, .error (.transport err))))
                + resBound ⟨s.next_id, []⟩ id ≤ resBound s id
              have hcount := resCountFor_map_keys id s.pending
                (fun _ => .error (.transport err))
              rw [hcount]
              have hfil := filter_key_length_le_one id s.pending hinv.1
              show _ + ((if id ∈ ([] : List (Int × PendingRequestInfo)).map Prod.fst
                  then 1 else 0) + (if s.next_id ≤ id then 1 else 0))
                ≤ (if id ∈ s.pending.map Prod.fst then 1 else 0)
                  + (if s.next_id ≤ id then 1 else 0)
              rw [show (if id ∈ ([] : List (Int × PendingRequestInfo)).map Prod.fst
                then (1 : Nat) else 0) = 0 from by simp]
              omega
          | none =>
              show resCountFor id [] + resBound s id ≤ resBound s id
              rw [show resCountFor id ([] : List (Int × CommandResult)) = 0 from rfl]
              omega
      | idle =>
          show resCountFor id [] + resBound s id ≤ resBound s id
          rw [show resCountFor id ([] : List (Int × CommandResult)) = 0 from rfl]
          omega
      | connecting =>
          show resCountFor id [] + resBound s id ≤ resBound s id
          rw [show resCountFor id ([] : List (Int × CommandResult)) = 0 from rfl]
          omega
      | connected =>
          show resCountFor id [] + resBound s id ≤ resBound s id
          rw [show resCountFor id ([] : List (Int × CommandResult)) = 0 from rfl]
          omega
      | disconnecting =>
          show resCountFor id [] + resBound s id ≤ resBound s id
          rw [show resCountFor id ([] : List (Int × CommandResult)) = 0 from rfl]
          omega
      | failedToStart e =>
          show resCountFor id [] + resBound s id ≤ resBound s id
          rw [show resCountFor id ([] : List (Int × CommandResult)) = 0 from rfl]
          omega

/-- Over a whole run the resolutions for an id never exceed the bound. -/
theorem resCountFor_runTrace_le (t : List CmdMsg) : ∀ s : CmdState, CmdInv s →
    ∀ id : Int, resCountFor id (runTrace s t).2.1 ≤ resBound s id := by
  induction t with
  | nil =>
      intro s _ id
      exact Nat.zero_le _
  | cons m rest ih =>
      intro s hinv id
      show resCountFor id ((stepCmd m s).resolutions
        ++ (runTrace (stepCmd m s).state rest).2.1) ≤ resBound s id
      rw [resCountFor_append]
      have hrec := ih (stepCmd m s).state (cmdInv_stepCmd m s hinv) id
      have hstep := stepBound m s hinv id
      omega

/-! ## Claim C4: exactly-once sink resolution -/

/-- C4 (confirmed): over any mailbox trace from a fresh multiplexer,
each command id's sink is resolved at most once; a response whose id
matches no pending request resolves nothing and changes nothing; a
correlated response removes the pending record and resolves the sink
with `Ok(result or null)` (no `error`) or `Err(Protocol{code, message,
data})` (`error` present); a firing deadline removes the record and
resolves `Err(Timeout)`; and after a timeout has fired for an id, a
late reply for that id resolves no sink. -/
theorem c4_at_most_once_resolution (t : List CmdMsg) (id : Int) (s : CmdState)
    (r : JsonRpcResponse) (e : JsonRpcError) :
    resCountFor id (runTrace CommandActor.init t).2.1 ≤ 1
    ∧ (r.id ∉ s.pending.map Prod.fst → handleResponse r s = (s, []))
    ∧ (r.id ∈ s.pending.map Prod.fst → r.error = none →
        handleResponse r s = ({ s with pending := assocRemove r.id s.pending },
          [(r.id, .ok (r.result.getD .null))]))
    ∧ (r.id ∈ s.pending.map Prod.fst → r.error = some e →
        handleResponse r s = ({ s with pending := assocRemove r.id s.pending },
          [(r.id, .error (.protocol (some e.code) e.message
            (e.data.map JsonValue.render)))]))
    ∧ (id ∈ s.pending.map Prod.fst →
        handleTimeout id s = ({ s with pending := assocRemove id s.pending },
          [(id, .error .timeout)]))
    ∧ (r.id = id → (handleResponse r (handleTimeout id s).1).2 = []) := by
  refine ⟨?_, ?_, ?_, ?_, ?_, ?_⟩
  · have hb := resCountFor_runTrace_le t CommandActor.init
      ⟨List.nodup_nil, fun p hp => absurd hp (List.not_mem_nil p)⟩ id
    have hinit : resBound CommandActor.init id ≤ 1 := by
      show (if id ∈ ([] : List (Int × PendingRequestInfo)).map Prod.fst then 1 else 0)
        + (if (1 : Int) ≤ id then 1 else 0) ≤ 1
      rw [show (if id ∈ ([] : List (Int × PendingRequestInfo)).map Prod.fst
        then (1 : Nat) else 0) = 0 from by simp]
      by_cases h1 : (1 : Int) ≤ id
      · rw [if_pos h1]
      · rw [if_neg h1]
        omega
    omega
  · intro hnm
    cases hg : assocGet r.id s.pending with
    | none => exact handleResponse_get_none hg
    | some pi =>
        exfalso
        apply hnm
        apply (assocGet_isSome_iff_mem_keys _ _).mp
        rw [hg]
        rfl
  · intro hm herr
    obtain ⟨pi, hg⟩ := Option.isSome_iff_exists.mp
      ((assocGet_isSome_iff_mem_keys _ _).mpr hm)
    rw [handleResponse_get_some hg]
    have hpay : responsePayload r = .ok (r.result.getD .null) := by
      unfold responsePayload
      rw [herr]
    rw [hpay]
  · intro hm herr
    obtain ⟨pi, hg⟩ := Option.isSome_iff_exists.mp
      ((assocGet_isSome_iff_mem_keys _ _).mpr hm)
    rw [handleResponse_get_some hg]
    have hpay : responsePayload r = .error (.protocol (some e.code) e.message
        (e.data.map JsonValue.render)) := by
      unfold responsePayload
      rw [herr]
    rw [hpay]
  · intro hm
    obtain ⟨pi, hg⟩ := Option.isSome_iff_exists.mp
      ((assocGet_isSome_iff_mem_keys _ _).mpr hm)
    exact handleTimeout_get_some hg
  · intro hrid
    cases hg : assocGet id s.pending with
    | none =>
        rw [handleTimeout_get_none hg]
        rw [handleResponse_get_none (by rw [hrid]; exact hg)]
    | some pi =>
        rw [handleTimeout_get_some hg]
        have hnone : assocGet r.id (assocRemove id s.pending) = none := by
          apply assocGet_none_of_not_mem_keys
          rw [hrid]
          exact not_mem_keys_assocRemove_self id s.pending
        rw [handleResponse_get_none hnone]

/-- C4 witness: a response for id 1 against a multiplexer with nothing
pending resolves no sink, and the empty trace resolves id 1 at most
once. -/
theorem c4_at_most_once_resolution_witness :
    resCountFor 1 (runTrace CommandActor.init []).2.1 ≤ 1
    ∧ handleResponse ⟨1, none, none⟩ ⟨1, []⟩ = (⟨1, []⟩, []) := by
  have h := c4_at_most_once_resolution [] 1 ⟨1, []⟩ ⟨1, none, none⟩ ⟨0, "", none⟩
  exact ⟨h.1, h.2.1 (by simp)⟩

end Janus
